/-
  Verification of the urlshortner link-resolution core.

  Shallow embedding of the Django application `shortener` app:
  - `models.py`   : the `URL` and `Click` records and their methods.
  - `forms.py`    : `URLForm.clean_custom_short_code`, `URLForm._generate_short_code`,
                    `PasswordForm.clean_password`.
  - `views.py`    : `redirect_short_url` (the resolution state machine).
  - `utils.py`    : `get_user_agent_info`.
  - `api/views.py`: `url_stats` (the analytics aggregation endpoint).

  Timestamps are modelled as natural numbers (seconds); the database is a pair
  of lists mirroring the `URL` and `Click` tables; Django querysets over those
  tables are modelled as the corresponding list operations.
-/
import Mathlib

namespace UrlShortener

/-- Whether `needle` occurs as a contiguous run inside `hay`. -/
def charsContain (hay needle : List Char) : Bool :=
  match hay with
  | [] => needle.isEmpty
  | _ :: rest => needle.isPrefixOf hay || charsContain rest needle

/-- Python's `needle in haystack` substring test on strings. -/
def strContains (haystack needle : String) : Bool :=
  charsContain haystack.toList needle.toList

/-- Python's `str.lower()` (ASCII case folding, applied characterwise). -/
def str_lower (s : String) : String :=
  String.mk (s.toList.map Char.toLower)

/-!  ## Data model (`shortener/models.py`)  -/

/-- The `URL` model of `shortener/models.py` (the fields the resolution core
reads or writes; presentation-only fields such as `description` and `tags`
are omitted). `password = ""` models the blank `CharField` (no password). -/
structure URLRec where
  id : Nat
  original_url : String
  short_code : String
  created_at : Nat
  expires_at : Option Nat
  is_custom : Bool
  is_active : Bool
  password : String
  /-- Modelled from the spec: `models.py` declares no `is_one_time` field even
  though `views.py` (line 250), `forms.py` (line 64) and both serializers
  reference it; §3 of the spec lists `is_one_time (bool)` as a ShortLink
  attribute, so the missing field declaration is modelled as a plain boolean. -/
  is_one_time : Bool
  click_count : Nat
  last_clicked : Option Nat
  deriving Repr, DecidableEq

/-- The `Click` model of `shortener/models.py`. -/
structure ClickRec where
  url_id : Nat
  clicked_at : Nat
  ip_address : Option String
  referrer : String
  user_agent : String
  country : String
  city : String
  device_type : String
  browser : String
  os : String
  deriving Repr, DecidableEq

/-- The database state: the `URL` table and the `Click` table. -/
structure DB where
  urls : List URLRec
  clicks : List ClickRec
  deriving Repr, DecidableEq

/-- One inbound HTTP request's context: the current time, the session's set of
`url_{id}_authenticated` markers, and the client attributes that
`Click.create_from_request` reads (the `country`/`city` fields carry the
best-effort GeoIP2 result, empty on any lookup failure). -/
structure RequestCtx where
  now : Nat
  session_auth : List Nat
  ip : Option String
  referrer : String
  user_agent : String
  country : String
  city : String
  deriving Repr, DecidableEq

/-- The responses `redirect_short_url` can produce, with their HTTP status:
`HttpResponsePermanentRedirect` (301), the `redirect` to
`shortener:url_password` (302), the `url_expired.html` render (410), and
`Http404` (404). -/
inductive Response where
  | permanentRedirect (target : String)
  | passwordRedirect (short_code : String)
  | expiredPage
  | notFound
  deriving Repr, DecidableEq

/-- HTTP status code of each response. -/
def Response.status : Response → Nat
  | .permanentRedirect _ => 301
  | .passwordRedirect _ => 302
  | .expiredPage => 410
  | .notFound => 404

/-!  ## Registry operations  -/

/-- `URL.objects.filter(short_code=code).exists()` — membership of a code in
the registry, irrespective of `is_active`. -/
def code_in_registry (db : DB) (code : String) : Bool :=
  db.urls.any (fun u => u.short_code == code)

/-- `URL.objects.get(short_code=short_code, is_active=True)` as used by
`redirect_short_url` (`views.py` line 233): the lookup only sees active
links; `none` models `URL.DoesNotExist`. -/
def lookup_active (db : DB) (code : String) : Option URLRec :=
  db.urls.find? (fun u => u.short_code == code && u.is_active)

/-- Saving a `URL` instance: the row with the instance's primary key is
replaced. -/
def save_url (db : DB) (u : URLRec) : DB :=
  { db with urls := db.urls.map (fun v => if v.id == u.id then u else v) }

/-- `URL.is_expired` (`models.py` lines 111–115) and the inline expiry check of
`redirect_short_url` (`views.py` line 236): no `expires_at` means never
expired, otherwise expired iff `now` is strictly past `expires_at`. -/
def url_is_expired (u : URLRec) (now : Nat) : Bool :=
  match u.expires_at with
  | none => false
  | some e => e < now

/-- `URL.increment_click_count` (`models.py` lines 117–121). -/
def increment_click_count (u : URLRec) (now : Nat) : URLRec :=
  { u with click_count := u.click_count + 1, last_clicked := some now }

/-- The record mutation of the resolution transition (`views.py` lines
246–252): increment the click count, then deactivate if one-time. -/
def resolve_update (u : URLRec) (now : Nat) : URLRec :=
  let url1 := increment_click_count u now
  if url1.is_one_time then { url1 with is_active := false } else url1

/-!  ## Click recording (`Click.create_from_request`, `models.py` 171–217)  -/

/-- `Click.create_from_request`: IP, referrer and user agent are read from the
request, geo fields are the best-effort GeoIP2 result, the device type is the
inline capitalized substring match (default `"Desktop"`), and `browser`/`os`
are always left empty. -/
def create_from_request (u : URLRec) (ctx : RequestCtx) : ClickRec :=
  { url_id := u.id
    clicked_at := ctx.now
    ip_address := ctx.ip
    referrer := ctx.referrer
    user_agent := ctx.user_agent
    country := ctx.country
    city := ctx.city
    device_type :=
      if strContains ctx.user_agent "Mobile" then "Mobile"
      else if strContains ctx.user_agent "Tablet" || strContains ctx.user_agent "iPad" then "Tablet"
      else "Desktop"
    browser := ""
    os := "" }

/-!  ## The resolution state machine (`redirect_short_url`, `views.py` 230–257)  -/

/-- `redirect_short_url`: look up the code among *active* links (a miss raises
`Http404`); then, in order: the expiry check (renders the 410 page), the
password gate (redirects to `shortener:url_password` when a password is set
and the session lacks the `url_{id}_authenticated` marker), and finally the
resolution transition — create a `Click`, increment the click count, flip
`is_active` off for one-time links, and answer a 301 to the original URL. -/
def redirect_short_url (db : DB) (ctx : RequestCtx) (short_code : String) :
    Response × DB :=
  match lookup_active db short_code with
  | none => (.notFound, db)
  | some url =>
    if url_is_expired url ctx.now then
      (.expiredPage, db)
    else if url.password != "" && !(ctx.session_auth.contains url.id) then
      (.passwordRedirect short_code, db)
    else
      let click := create_from_request url ctx
      (.permanentRedirect url.original_url,
        save_url { db with clicks := db.clicks ++ [click] } (resolve_update url ctx.now))

/-- Process a sequence of redirect requests, threading the database state and
collecting the responses in order. -/
def runRequests (db : DB) : List (RequestCtx × String) → List Response × DB
  | [] => ([], db)
  | (ctx, code) :: rest =>
    let step := redirect_short_url db ctx code
    let tail := runRequests step.2 rest
    (step.1 :: tail.1, tail.2)

/-- Whether a response is a successful redirect. -/
def Response.isSuccess : Response → Bool
  | .permanentRedirect _ => true
  | _ => false

/-- Number of successful redirects that a request sequence obtains for a given
short code, starting from a given database state. -/
def successCount (db : DB) (c : String) : List (RequestCtx × String) → Nat
  | [] => 0
  | (ctx, code) :: rest =>
    let step := redirect_short_url db ctx code
    (if code == c && step.1.isSuccess then 1 else 0) + successCount step.2 c rest

/-!  ## Form validation (`shortener/forms.py`)  -/

/-- Validation failures of `URLForm.clean_custom_short_code`
(`forms.py` lines 70–87): the charset message and the taken-code message. -/
inductive FormError where
  | invalidChars
  | codeTaken
  deriving Repr, DecidableEq

/-- `URLForm.clean_custom_short_code` (`forms.py` lines 70–87): an empty code
cleans to `None`; a code with a character for which Python's `c.isalnum()` is
false and that is neither `-` nor `_` is rejected; a code already present in
the registry (active or not) is rejected; anything else is accepted as-is.
Python's `str.isalnum` is Unicode-aware — its character table is external to
the source — so the classifier is a parameter of the embedding: on ASCII it
coincides with `Char.isAlphanum`, and Python additionally classifies
non-ASCII Unicode alphanumerics (such as `'ü'`) as alphanumeric. -/
def clean_custom_short_code (isalnum : Char → Bool) (db : DB)
    (short_code : String) : Except FormError (Option String) :=
  if short_code = "" then .ok none
  else if !(short_code.toList.all (fun c => isalnum c || c = '-' || c = '_')) then
    .error .invalidChars
  else if code_in_registry db short_code then
    .error .codeTaken
  else
    .ok (some short_code)

/-- `URLForm._generate_short_code` (`forms.py` lines 113–124), embedded with an
explicit draw oracle and fuel: `draws len k` is the code the `k`-th
`random.choices` call at length `len` produces, `existsCode` is the registry
collision check.  The source tries 10 draws at the current length and then
recurses at `length + 1` with no bound; `fuel` makes that recursion
definable, with `none` meaning the recursion was still running when the fuel
ran out. -/
def gen_short_code (existsCode : String → Bool) (draws : Nat → Nat → String) :
    Nat → Nat → Option String
  | _, 0 => none
  | length, fuel + 1 =>
    match (List.range 10).find? (fun k => !existsCode (draws length k)) with
    | some k => some (draws length k)
    | none => gen_short_code existsCode draws (length + 1) fuel

/-- `PasswordForm.clean_password` (`forms.py` lines 162–169): the submitted
string is rejected iff a link is attached and its stored `password` differs
from the submission; otherwise the submission is returned unchanged. -/
def clean_password (url : Option URLRec) (submitted : String) :
    Except FormError String :=
  match url with
  | some u => if u.password ≠ submitted then .error .invalidChars else .ok submitted
  | none => .ok submitted

/-- Responses of the password-entry surface. -/
inductive PwResponse where
  | formPage (short_code : String)
  | redirectToShort (short_code : String)
  deriving Repr, DecidableEq

/-- Modelled from the spec: the password-entry view (`shortener:url_password`)
that `redirect_short_url` targets is absent from the sources; §4.3/§6 of the
spec specify that a submission is checked (here via the source's
`PasswordForm.clean_password`) and on success sets the verification marker
scoped to `(session, code)` before redirecting back to the short URL, while
a failed submission re-renders the form with no other effect. -/
def url_password_view (db : DB) (session : List Nat) (short_code submitted : String) :
    PwResponse × List Nat × DB :=
  match lookup_active db short_code with
  | none => (.formPage short_code, session, db)
  | some u =>
    match clean_password (some u) submitted with
    | .ok _ => (.redirectToShort short_code, u.id :: session, db)
    | .error _ => (.formPage short_code, session, db)

/-!  ## Link creation (`URLCreateSerializer.create`, `serializers.py` 128–147)  -/

/-- `URLCreateSerializer.create`: `expiration_days` is turned into an absolute
`expires_at` of `now + days`, the password is stored verbatim (no hash is ever
computed anywhere in the sources), and the remaining fields take the model
defaults (`is_active = True`, `click_count = 0`, `last_clicked = None`).
Days are modelled in seconds (`86400` per day). -/
def url_create (id : Nat) (now : Nat) (original_url short_code : String)
    (expiration_days : Option Nat) (is_one_time : Bool) (password : String) :
    URLRec :=
  { id := id
    original_url := original_url
    short_code := short_code
    created_at := now
    expires_at := expiration_days.map (fun d => now + d * 86400)
    is_custom := short_code ≠ ""
    is_active := true
    password := password
    is_one_time := is_one_time
    click_count := 0
    last_clicked := none }

/-!  ## User-agent parsing (`get_user_agent_info`, `utils.py` 124–183)  -/

/-- The derived client metadata triple. -/
structure UAInfo where
  device_type : Option String
  browser : Option String
  os : Option String
  deriving Repr, DecidableEq

/-- `get_user_agent_info` (`utils.py` lines 124–183): the empty string yields
three unset fields; otherwise the lowercased string is run through three
ordered substring tables — device type (with a `'desktop'` default), browser
and OS (both `None` when no rule matches). -/
def get_user_agent_info (user_agent_string : String) : UAInfo :=
  if user_agent_string = "" then
    { device_type := none, browser := none, os := none }
  else
    let ua := str_lower user_agent_string
    let device_type :=
      if strContains ua "mobile" then "mobile"
      else if strContains ua "tablet" || strContains ua "ipad" then "tablet"
      else "desktop"
    let browser :=
      if strContains ua "chrome" then some "Chrome"
      else if strContains ua "firefox" then some "Firefox"
      else if strContains ua "safari" then some "Safari"
      else if strContains ua "edge" then some "Edge"
      else if strContains ua "opera" then some "Opera"
      else if strContains ua "msie" || strContains ua "trident" then
        some "Internet Explorer"
      else none
    let os_info :=
      if strContains ua "windows" then some "Windows"
      else if strContains ua "mac os" then some "macOS"
      else if strContains ua "linux" && !strContains ua "android" then some "Linux"
      else if strContains ua "android" then some "Android"
      else if strContains ua "iphone" || strContains ua "ipad" || strContains ua "ipod" then
        some "iOS"
      else none
    { device_type := some device_type, browser := browser, os := os_info }

/-!  ## Analytics aggregation (`url_stats`, `api/views.py` 75–123)

The queryset combinators are modelled over the click list: `GROUP BY`
enumerates groups in first-seen order, `ORDER BY -count` is a stable
descending sort (ties keep the grouping order), `ORDER BY date` sorts the
date keys ascending. -/

/-- Distinct values of a list, keeping the first occurrence of each. -/
def firstSeen : List String → List String
  | [] => []
  | r :: rs => r :: (firstSeen rs).filter (fun x => x ≠ r)

/-- Insert into a list sorted by descending second component, after any
elements with a greater-or-equal key (stable insertion). -/
def insertDesc (a : String × Nat) : List (String × Nat) → List (String × Nat)
  | [] => [a]
  | b :: bs => if b.2 > a.2 then b :: insertDesc a bs else a :: b :: bs

/-- Stable insertion sort by descending second component. -/
def sortDesc : List (String × Nat) → List (String × Nat)
  | [] => []
  | a :: as => insertDesc a (sortDesc as)

/-- Insert a number into an ascending list. -/
def insertAsc (a : Nat) : List Nat → List Nat
  | [] => [a]
  | b :: bs => if a ≤ b then a :: b :: bs else b :: insertAsc a bs

/-- Ascending insertion sort on numbers. -/
def sortAsc : List Nat → List Nat
  | [] => []
  | a :: as => insertAsc a (sortAsc as)

/-- The clicks of one link: `Click.objects.filter(url=url)`. -/
def clicks_of (db : DB) (uid : Nat) : List ClickRec :=
  db.clicks.filter (fun k => k.url_id == uid)

/-- The calendar date (`clicked_at__date`) of a click, as a day index. -/
def date_of (k : ClickRec) : Nat := k.clicked_at / 86400

/-- Distinct day indices in first-seen order. -/
def firstSeenNat : List Nat → List Nat
  | [] => []
  | r :: rs => r :: (firstSeenNat rs).filter (fun x => x ≠ r)

/-- The `clicks_by_date` queryset: values of `clicked_at__date` annotated with
their count, ordered by ascending date. -/
def clicks_by_date (cs : List ClickRec) : List (Nat × Nat) :=
  (sortAsc (firstSeenNat (cs.map date_of))).map
    (fun d => (d, (cs.filter (fun k => date_of k == d)).length))

/-- The grouped counts of one string-valued click attribute, restricted to
clicks where the attribute is non-empty (`__isnull=False` plus
`.exclude(field='')`), groups in first-seen order. -/
def grouped_counts (field : ClickRec → String) (cs : List ClickRec) :
    List (String × Nat) :=
  let vals := (cs.filter (fun k => field k ≠ "")).map field
  (firstSeen vals).map (fun v => (v, vals.count v))

/-- The contract of `.values(field).annotate(count=Count('id'))
.order_by('-count')`: SQL returns *some* row list holding each distinct
(non-empty) value exactly once with its exact count, ordered by descending
count — and nothing more. In particular the relative order of rows with equal
counts is left unspecified by the query, so the embedding constrains the row
list relationally instead of computing one canonical order. -/
def QuerysetTopOutput (field : ClickRec → String) (cs : List ClickRec)
    (rows : List (String × Nat)) : Prop :=
  rows.Perm (grouped_counts field cs) ∧
  rows.Pairwise (fun p q => q.2 ≤ p.2)

/-- The payload of the `url_stats` endpoint (`api/views.py` lines 75–123). -/
structure StatsResult where
  total_clicks : Nat
  unique_visitors : Nat
  clicks_by_date : List (Nat × Nat)
  top_referrers : List (String × Nat)
  top_user_agents : List (String × Nat)
  deriving Repr, DecidableEq

/-- `url_stats`: total clicks, distinct-IP visitor count (`NULL` is one
distinct value), clicks grouped by ascending date, and the first ten rows of
each of the two ordered-by-descending-count querysets. The two row lists are
parameters because SQL fixes them only up to the `QuerysetTopOutput`
contract (theorems about `url_stats` assume that contract). -/
def url_stats (db : DB) (uid : Nat)
    (ref_rows ua_rows : List (String × Nat)) : StatsResult :=
  let cs := clicks_of db uid
  { total_clicks := cs.length
    unique_visitors := (cs.map (fun k => k.ip_address)).dedup.length
    clicks_by_date := clicks_by_date cs
    top_referrers := ref_rows.take 10
    top_user_agents := ua_rows.take 10 }

/-!  ## Concrete fixtures shared by witnesses and counterexamples  -/

/-- An active, unexpired, unprotected link. -/
def exActive : URLRec :=
  { id := 1, original_url := "https://example.com", short_code := "abc123",
    created_at := 0, expires_at := none, is_custom := true, is_active := true,
    password := "", is_one_time := false, click_count := 0, last_clicked := none }

/-- A plain request context. -/
def exCtx : RequestCtx :=
  { now := 1000, session_auth := [], ip := some "203.0.113.7", referrer := "",
    user_agent := "Mozilla", country := "", city := "" }

/-- A database holding only the active fixture link. -/
def dbActive : DB := { urls := [exActive], clicks := [] }

/-- The fixture link, deactivated (code `gone99`). -/
def exInactive : URLRec :=
  { exActive with short_code := "gone99", is_active := false }

/-- A database holding only the inactive link. -/
def dbInactive : DB := { urls := [exInactive], clicks := [] }

/-- The fixture link with a long-past expiry. -/
def exExpired : URLRec := { exActive with expires_at := some 5 }

/-- A database holding only the expired (still active) link. -/
def dbExpired : DB := { urls := [exExpired], clicks := [] }

/-- The fixture link both expired and deactivated (code `gone99`). -/
def exExpiredInactive : URLRec :=
  { exActive with short_code := "gone99", is_active := false, expires_at := some 5 }

/-- A database holding only the expired-and-inactive link. -/
def dbExpiredInactive : DB := { urls := [exExpiredInactive], clicks := [] }

/-- A fresh one-time link (code `once11`). -/
def exOneTime : URLRec :=
  { exActive with id := 3, short_code := "once11", is_one_time := true }

/-- A database holding only the one-time link. -/
def dbOneTime : DB := { urls := [exOneTime], clicks := [] }

/-- The fixture link, password-protected. -/
def exProtected : URLRec := { exActive with password := "hunter2" }

/-- A database holding only the protected link. -/
def dbProtected : DB := { urls := [exProtected], clicks := [] }

/-!  ## C10 — plaintext password equality  -/

/-- C10: password verification succeeds exactly on character-for-character
equality of the submitted string with the stored `password` field, and link
creation stores the password verbatim — no hash is ever computed. -/
theorem password_plaintext_equality (u : URLRec) (s : String) (i now : Nat)
    (orig code : String) (exp : Option Nat) (ot : Bool) (p : String) :
    (url_create i now orig code exp ot p).password = p ∧
    (clean_password (some u) s = .ok s ↔ u.password = s) ∧
    (u.password ≠ s → clean_password (some u) s = .error .invalidChars) := by
  refine ⟨rfl, ?_, ?_⟩ <;>
    by_cases h : u.password = s <;> simp [clean_password, h]

/-- Witness for C10 at concrete inputs. -/
theorem password_plaintext_equality_witness :
    (url_create 7 0 "https://example.com" "abc123" none false "hunter2").password
      = "hunter2" ∧
    clean_password (some { exActive with password := "hunter2" }) "hunter2"
      = .ok "hunter2" :=
  ⟨(password_plaintext_equality exActive "x" 7 0 "https://example.com" "abc123"
      none false "hunter2").1,
   (password_plaintext_equality { exActive with password := "hunter2" } "hunter2"
      7 0 "" "" none false "").2.1.mpr rfl⟩

/-!  ## C8 — user-agent derivation  -/

/-- C8 counterexample: on a user-agent string matching no device rule, the code
does not leave `device_type` unset — it defaults it to `"desktop"` (while
`browser` and `os` are genuinely left unset). -/
theorem ua_device_defaulted_counterexample :
    (get_user_agent_info "curl/7.64.1").device_type = some "desktop" ∧
    (get_user_agent_info "curl/7.64.1").device_type ≠ none ∧
    (get_user_agent_info "curl/7.64.1").browser = none ∧
    (get_user_agent_info "curl/7.64.1").os = none := by decide

/-- C8 amended: derivation is a deterministic ordered substring-match table in
which the first matching rule wins and unmatched `browser`/`os` are left
unset, but an unmatched `device_type` is defaulted to `"desktop"` rather than
left unset (for the empty string all three fields are unset). -/
theorem ua_derivation_table (s : String) (h : s ≠ "") :
    ((get_user_agent_info s).device_type ≠ none) ∧
    (strContains (str_lower s) "mobile" = false →
      strContains (str_lower s) "tablet" = false →
      strContains (str_lower s) "ipad" = false →
      (get_user_agent_info s).device_type = some "desktop") ∧
    (strContains (str_lower s) "chrome" = true →
      (get_user_agent_info s).browser = some "Chrome") ∧
    (strContains (str_lower s) "chrome" = false →
      strContains (str_lower s) "firefox" = true →
      (get_user_agent_info s).browser = some "Firefox") ∧
    ((∀ kw ∈ ["chrome", "firefox", "safari", "edge", "opera", "msie", "trident"],
        strContains (str_lower s) kw = false) →
      (get_user_agent_info s).browser = none) ∧
    ((∀ kw ∈ ["windows", "mac os", "linux", "android", "iphone", "ipad", "ipod"],
        strContains (str_lower s) kw = false) →
      (get_user_agent_info s).os = none) ∧
    (∀ t, s = t → get_user_agent_info s = get_user_agent_info t) := by
  refine ⟨?_, ?_, ?_, ?_, ?_, ?_, fun t ht => by rw [ht]⟩
  · simp [get_user_agent_info, if_neg h]
  · intro h1 h2 h3; simp [get_user_agent_info, if_neg h, h1, h2, h3]
  · intro h1; simp [get_user_agent_info, if_neg h, h1]
  · intro h1 h2; simp [get_user_agent_info, if_neg h, h1, h2]
  · intro hall
    simp only [List.mem_cons, List.not_mem_nil, or_false, forall_eq_or_imp,
      forall_eq] at hall
    obtain ⟨h1, h2, h3, h4, h5, h6, h7⟩ := hall
    simp [get_user_agent_info, if_neg h, h1, h2, h3, h4, h5, h6, h7]
  · intro hall
    simp only [List.mem_cons, List.not_mem_nil, or_false, forall_eq_or_imp,
      forall_eq] at hall
    obtain ⟨h1, h2, h3, h4, h5, h6, h7⟩ := hall
    simp [get_user_agent_info, if_neg h, h1, h2, h3, h4, h5, h6, h7]

/-- Witness for C8's amended theorem at concrete inputs. -/
theorem ua_derivation_table_witness :
    (get_user_agent_info "Mozilla Firefox").browser = some "Firefox" :=
  (ua_derivation_table "Mozilla Firefox" (by decide)).2.2.2.1 (by decide) (by decide)

/-!  ## C6 — requested-code validation  -/

/-- C6 counterexample, exhibiting both ways the claim fails. Length: under the
ASCII classifier (which agrees with Python on these characters) the
one-character code `"a"` violates the claimed 6–24 bounds yet is accepted —
no minimum length exists. Charset: under a classifier marking `'ü'`
alphanumeric — as Python's Unicode-aware `str.isalnum` does — the code
`"ü23456"` is accepted although `'ü'` lies outside the claimed charset
`[A-Za-z0-9_-]`. -/
theorem code_validation_counterexample :
    clean_custom_short_code (fun c => c.isAlphanum) { urls := [], clicks := [] }
      "a" = .ok (some "a") ∧
    "a".length < 6 ∧
    clean_custom_short_code (fun c => c.isAlphanum || c = 'ü')
      { urls := [], clicks := [] } "ü23456" = .ok (some "ü23456") ∧
    'ü'.isAlphanum = false ∧ 'ü' ≠ '-' ∧ 'ü' ≠ '_' :=
  ⟨rfl, by decide, rfl, by decide, by decide, by decide⟩

/-- The boolean charset check of `clean_custom_short_code`, as a proposition. -/
lemma charset_ok_iff (isalnum : Char → Bool) (s : String) :
    (s.toList.all fun c => isalnum c || c = '-' || c = '_') = true ↔
      ∀ c ∈ s.toList, isalnum c = true ∨ c = '-' ∨ c = '_' := by
  rw [List.all_eq_true]
  constructor
  · intro hx c hc
    have := hx c hc
    simp only [Bool.or_eq_true, decide_eq_true_eq] at this
    tauto
  · intro hx c hc
    have := hx c hc
    simp only [Bool.or_eq_true, decide_eq_true_eq]
    tauto

/-- C6 amended: for every classifier standing in for Python's Unicode-aware
`str.isalnum`, the validator rejects a non-empty requested code exactly when
it contains a character the classifier rejects that is neither hyphen nor
underscore — a check broader than the claimed `[A-Za-z0-9_-]`, since Python
classifies non-ASCII Unicode alphanumerics as alphanumeric — and fails with a
conflict when any link, active or inactive, already holds the code; it
enforces no length bounds of its own (no minimum exists; the surrounding
form field caps input at 20 characters, not 24). -/
theorem custom_code_validation (isalnum : Char → Bool) (db : DB) (s : String) :
    (clean_custom_short_code isalnum db "" = .ok none) ∧
    (s ≠ "" → (∃ c ∈ s.toList, ¬(isalnum c = true ∨ c = '-' ∨ c = '_')) →
      clean_custom_short_code isalnum db s = .error .invalidChars) ∧
    (s ≠ "" → (∀ c ∈ s.toList, isalnum c = true ∨ c = '-' ∨ c = '_') →
      (∃ u ∈ db.urls, u.short_code = s) →
      clean_custom_short_code isalnum db s = .error .codeTaken) ∧
    (s ≠ "" → (∀ c ∈ s.toList, isalnum c = true ∨ c = '-' ∨ c = '_') →
      (∀ u ∈ db.urls, u.short_code ≠ s) →
      clean_custom_short_code isalnum db s = .ok (some s)) := by
  refine ⟨by simp [clean_custom_short_code], ?_, ?_, ?_⟩
  · rintro hs ⟨c, hc, hbad⟩
    have hall : (s.toList.all fun c => isalnum c || c = '-' || c = '_') = false := by
      rcases hEq : (s.toList.all fun c => isalnum c || c = '-' || c = '_') with _ | _
      · rfl
      · exact absurd ((charset_ok_iff isalnum s).mp hEq c hc) hbad
    unfold clean_custom_short_code
    rw [if_neg hs, hall]
    rfl
  · rintro hs hok ⟨u, hu, hcode⟩
    have hall := (charset_ok_iff isalnum s).mpr hok
    have hreg : code_in_registry db s = true := by
      simp only [code_in_registry, List.any_eq_true]
      exact ⟨u, hu, by simp [hcode]⟩
    unfold clean_custom_short_code
    rw [if_neg hs, hall, hreg]
    rfl
  · intro hs hok hfree
    have hall := (charset_ok_iff isalnum s).mpr hok
    have hreg : code_in_registry db s = false := by
      simp only [code_in_registry]
      rw [List.any_eq_false]
      intro u hu
      simpa using hfree u hu
    unfold clean_custom_short_code
    rw [if_neg hs, hall, hreg]
    rfl

/-- Witness for C6's amended theorem at concrete inputs (ASCII classifier,
which agrees with Python on every character involved): a well-formed fresh
code is accepted, a taken code (of an active link) is rejected. -/
theorem custom_code_validation_witness :
    clean_custom_short_code (fun c => c.isAlphanum)
      { urls := [exActive], clicks := [] } "my_code" = .ok (some "my_code") ∧
    clean_custom_short_code (fun c => c.isAlphanum)
      { urls := [exActive], clicks := [] } "abc123" = .error .codeTaken :=
  ⟨(custom_code_validation (fun c => c.isAlphanum)
      { urls := [exActive], clicks := [] } "my_code").2.2.2
      (by decide) (by decide) (by decide),
   (custom_code_validation (fun c => c.isAlphanum)
      { urls := [exActive], clicks := [] } "abc123").2.2.1
      (by decide) (by decide) ⟨exActive, by decide, by decide⟩⟩

/-!  ## C5 — bounded allocation  -/

/-- C5 counterexample: with a draw oracle whose candidates collide at every
length up to 10 and are fresh at length 11, `_generate_short_code` escalates
past the claimed length-10 ceiling and returns a length-11 code — it never
fails with `AllocationExhausted` (its recursion carries no bound at all; the
`fuel` argument exists only in the embedding). -/
theorem allocation_unbounded_counterexample :
    gen_short_code (fun s => s.length ≤ 10)
        (fun len _ => String.mk (List.replicate len 'a')) 6 6
      = some (String.mk (List.replicate 11 'a')) ∧
    (String.mk (List.replicate 11 'a')).length = 11 := by decide

/-- C5 amended: automatic generation draws length-6 codes by default, retries
at most 10 times per length, and after an exhausted batch escalates the
length by exactly one — with no total bound and no `AllocationExhausted`
failure; termination is contingent on some draw eventually missing the
registry. -/
theorem generation_retry_and_escalate (existsCode : String → Bool)
    (draws : Nat → Nat → String) (len fuel k : Nat) :
    gen_short_code existsCode draws len 0 = none ∧
    ((List.range 10).find? (fun j => !existsCode (draws len j)) = some k →
      gen_short_code existsCode draws len (fuel + 1) = some (draws len k)) ∧
    ((∀ j < 10, existsCode (draws len j) = true) →
      gen_short_code existsCode draws len (fuel + 1) =
        gen_short_code existsCode draws (len + 1) fuel) := by
  refine ⟨rfl, ?_, ?_⟩
  · intro hfind; simp [gen_short_code, hfind]
  · intro hcoll
    have hnone : (List.range 10).find? (fun j => !existsCode (draws len j)) = none := by
      rw [List.find?_eq_none]
      intro j hj
      simp only [List.mem_range] at hj
      simp [hcoll j hj]
    simp [gen_short_code, hnone]

/-- Witness for C5's amended theorem at concrete inputs: an immediately fresh
draw is returned; ten collisions escalate the length by one. -/
theorem generation_retry_and_escalate_witness :
    gen_short_code (fun _ => false) (fun _ _ => "qwerty") 6 1 = some "qwerty" ∧
    gen_short_code (fun _ => true) (fun _ _ => "qwerty") 6 1 =
      gen_short_code (fun _ => true) (fun _ _ => "qwerty") 7 0 :=
  ⟨(generation_retry_and_escalate (fun _ => false) (fun _ _ => "qwerty") 6 0 0).2.1
      (by decide),
   (generation_retry_and_escalate (fun _ => true) (fun _ _ => "qwerty") 6 0 0).2.2
      (by decide)⟩

/-!  ## Lookup facts shared by the resolution claims  -/

/-- A successful active lookup returns a member record with the requested code
and `is_active = true`. -/
lemma lookup_active_spec {db : DB} {c : String} {u : URLRec}
    (h : lookup_active db c = some u) :
    u ∈ db.urls ∧ u.short_code = c ∧ u.is_active = true := by
  have hmem := List.mem_of_find?_eq_some h
  have hp := List.find?_some h
  simp only [Bool.and_eq_true, beq_iff_eq] at hp
  exact ⟨hmem, hp.1, hp.2⟩

/-- If no record with the code is active, the active lookup misses. -/
lemma lookup_active_none {db : DB} {c : String}
    (h : ∀ v ∈ db.urls, v.short_code = c → v.is_active = false) :
    lookup_active db c = none := by
  rw [lookup_active, List.find?_eq_none]
  intro v hv
  by_cases hcode : v.short_code = c
  · simp [hcode, h v hv hcode]
  · simp [hcode]

/-- The one field-by-field description of the resolution-transition record
update: identity, code, URL and the one-time flag are untouched, the click
count goes up by one and `last_clicked` is stamped. -/
lemma resolve_update_fields (u : URLRec) (now : Nat) :
    (resolve_update u now).id = u.id ∧
    (resolve_update u now).original_url = u.original_url ∧
    (resolve_update u now).short_code = u.short_code ∧
    (resolve_update u now).is_one_time = u.is_one_time ∧
    (resolve_update u now).password = u.password ∧
    (resolve_update u now).click_count = u.click_count + 1 ∧
    (resolve_update u now).last_clicked = some now := by
  simp only [resolve_update, increment_click_count]
  split <;> exact ⟨rfl, rfl, rfl, rfl, rfl, rfl, rfl⟩

/-- The resolution transition deactivates one-time links and otherwise leaves
`is_active` unchanged — in particular it never activates a link. -/
lemma resolve_update_is_active (u : URLRec) (now : Nat) :
    (resolve_update u now).is_active
      = (if u.is_one_time = true then false else u.is_active) := by
  simp only [resolve_update, increment_click_count]
  split <;> simp_all

/-- With pairwise-distinct codes, a record of the table is determined by its
short code. -/
lemma code_determines {db : DB} {c : String} {u v : URLRec}
    (hnodup : (db.urls.map (fun w => w.short_code)).Nodup)
    (hu : u ∈ db.urls) (hv : v ∈ db.urls)
    (huc : u.short_code = c) (hvc : v.short_code = c) : u = v :=
  List.inj_on_of_nodup_map hnodup hu hv (by rw [huc, hvc])

/-!  ## C1 — round-trip resolution  -/

/-- C1: for an active, unexpired, non-password-gated link, `GET /{code}`
appends exactly one `Click`, increments the link's `click_count` by one
(so a fresh link reaches `click_count = 1`), stamps `last_clicked`, and
answers a 301 permanent redirect to the stored original URL. -/
theorem resolution_round_trip (db : DB) (ctx : RequestCtx) (c : String)
    (u : URLRec)
    (hfind : lookup_active db c = some u)
    (hexp : url_is_expired u ctx.now = false)
    (hpw : u.password = "" ∨ u.id ∈ ctx.session_auth) :
    (redirect_short_url db ctx c).1 = .permanentRedirect u.original_url ∧
    (redirect_short_url db ctx c).1.status = 301 ∧
    (redirect_short_url db ctx c).2.clicks
      = db.clicks ++ [create_from_request u ctx] ∧
    (∃ w ∈ (redirect_short_url db ctx c).2.urls,
      w.id = u.id ∧ w.original_url = u.original_url ∧
      w.click_count = u.click_count + 1 ∧ w.last_clicked = some ctx.now ∧
      (u.click_count = 0 → w.click_count = 1)) := by
  have hgate : (u.password != "" && !(ctx.session_auth.contains u.id)) = false := by
    rcases hpw with hpw | hpw
    · rw [hpw]
      rfl
    · have hc : ctx.session_auth.contains u.id = true := by
        simpa [List.contains] using List.elem_iff.mpr hpw
      rw [hc]
      simp
  have hstep : redirect_short_url db ctx c =
      (.permanentRedirect u.original_url,
        save_url { db with clicks := db.clicks ++ [create_from_request u ctx] }
          (resolve_update u ctx.now)) := by
    simp only [redirect_short_url, hfind]
    rw [hexp, hgate]
    simp
  obtain ⟨hid, horig, _, _, _, hcount, hlast⟩ := resolve_update_fields u ctx.now
  refine ⟨by rw [hstep], by rw [hstep]; rfl, by rw [hstep]; rfl, ?_⟩
  rw [hstep]
  have hmem := (lookup_active_spec hfind).1
  refine ⟨resolve_update u ctx.now, ?_, hid, horig, hcount, hlast,
    fun h0 => by rw [hcount, h0]⟩
  rw [save_url]
  apply List.mem_map.mpr
  refine ⟨u, hmem, ?_⟩
  rw [hid]
  simp

/-- Witness for C1: the fixture link resolves to a 301 with `click_count = 1`. -/
theorem resolution_round_trip_witness :
    (redirect_short_url dbActive exCtx "abc123").1
      = .permanentRedirect "https://example.com" ∧
    (∃ w ∈ (redirect_short_url dbActive exCtx "abc123").2.urls,
      w.id = 1 ∧ w.click_count = 1) := by
  have h := resolution_round_trip dbActive exCtx "abc123" exActive
    (by decide) (by decide) (Or.inl rfl)
  refine ⟨h.1, ?_⟩
  rcases h.2.2.2 with ⟨w, hw, hid, _, _, _, hfresh⟩
  exact ⟨w, hw, hid, hfresh rfl⟩

/-!  ## C3 — outcome distinctness at the redirect surface  -/

/-- C3 counterexample: a link that exists but is inactive is answered with
404 (`Http404`), not the claimed 410 — `redirect_short_url` looks up with
`is_active=True` and so conflates Inactive with NotFound. -/
theorem inactive_conflated_counterexample :
    (∃ u ∈ dbInactive.urls, u.short_code = "gone99" ∧ u.is_active = false) ∧
    (redirect_short_url dbInactive exCtx "gone99").1 = .notFound ∧
    Response.notFound.status = 404 ∧ Response.notFound.status ≠ 410 := by
  refine ⟨⟨exInactive, by simp [dbInactive], rfl, rfl⟩, rfl, rfl, by decide⟩

/-- C3 amended: `GET /{code}` yields 404 exactly when no *active* link with
that code exists — a present-but-inactive link is reported exactly like a
missing one — and yields 410 exactly when an active link with that code
exists and is expired. -/
theorem redirect_status_partition (db : DB) (ctx : RequestCtx) (c : String)
    (hnodup : (db.urls.map (fun w => w.short_code)).Nodup) :
    ((redirect_short_url db ctx c).1.status = 404 ↔
      ∀ u ∈ db.urls, u.short_code = c → u.is_active = false) ∧
    ((redirect_short_url db ctx c).1.status = 410 ↔
      ∃ u ∈ db.urls, u.short_code = c ∧ u.is_active = true ∧
        url_is_expired u ctx.now = true) := by
  rcases hlk : lookup_active db c with _ | u
  · have hmiss : ∀ u ∈ db.urls, u.short_code = c → u.is_active = false := by
      intro u hu hcode
      by_contra hact
      have : (fun v => v.short_code == c && v.is_active) u = true := by
        simp [hcode, Bool.ne_false_iff.mp hact]
      exact absurd (List.find?_eq_none.mp hlk u hu this) (by simp)
    constructor
    · simp only [redirect_short_url, hlk]
      exact ⟨fun _ => hmiss, fun _ => rfl⟩
    · simp only [redirect_short_url, hlk]
      constructor
      · intro h; exact absurd h (by decide)
      · rintro ⟨u, hu, hcode, hact, _⟩
        exact absurd (hmiss u hu hcode) (by simp [hact])
  · obtain ⟨hmem, hcode, hact⟩ := lookup_active_spec hlk
    rcases hexp : url_is_expired u ctx.now with _ | _
    · have h404 : (redirect_short_url db ctx c).1.status ≠ 404 ∧
          (redirect_short_url db ctx c).1.status ≠ 410 := by
        rw [redirect_short_url, hlk]
        simp only [hexp]
        rcases hgate : (u.password != "" && !(ctx.session_auth.contains u.id)) with _ | _
        · simp [Response.status]
        · simp [Response.status]
      refine ⟨⟨fun h => absurd h h404.1, fun hall => ?_⟩,
              ⟨fun h => absurd h h404.2, fun hex => ?_⟩⟩
      · exact absurd (hall u hmem hcode) (by simp [hact])
      · rcases hex with ⟨v, hv, hvcode, _, hvexp⟩
        have : u = v := code_determines hnodup hmem hv hcode hvcode
        rw [← this] at hvexp
        exact absurd hvexp (by simp [hexp])
    · have h410 : (redirect_short_url db ctx c).1 = .expiredPage := by
        rw [redirect_short_url, hlk]
        simp [hexp]
      rw [h410]
      exact ⟨⟨fun h => absurd h (by decide), fun hall =>
          absurd (hall u hmem hcode) (by simp [hact])⟩,
        ⟨fun _ => ⟨u, hmem, hcode, hact, hexp⟩, fun _ => rfl⟩⟩

/-- Witness for C3's amended theorem: a missing code 404s, an expired active
link 410s. -/
theorem redirect_status_partition_witness :
    (redirect_short_url dbActive exCtx "nosuch").1.status = 404 ∧
    (redirect_short_url dbExpired exCtx "abc123").1.status = 410 := by
  constructor
  · exact (redirect_status_partition dbActive exCtx "nosuch" (by decide)).1.mpr
      (by decide)
  · exact (redirect_status_partition dbExpired exCtx "abc123" (by decide)).2.mpr
      ⟨exExpired, by simp [dbExpired], rfl, rfl, by decide⟩

/-!  ## C4 — expiry precedence  -/

/-- C4 counterexample: a link whose `expires_at` is strictly past but whose
`is_active` is false is answered 404 (NotFound), not the claimed `Expired` —
the inactive row is filtered out before the expiry check can run. -/
theorem expired_inactive_counterexample :
    (redirect_short_url dbExpiredInactive exCtx "gone99").1 = .notFound ∧
    Response.notFound.status = 404 ∧
    exExpiredInactive.expires_at = some 5 ∧ 5 < exCtx.now ∧
    exExpiredInactive.is_active = false := by
  exact ⟨rfl, rfl, rfl, by decide, rfl⟩

/-- C4 amended: a strictly past `expires_at` yields the Expired outcome only
for *active* links (the 410 page, with the database unmutated); an expired
link with `is_active = false` is filtered out of the lookup and reported
NotFound (404, likewise without mutation). -/
theorem expiry_read_only (db : DB) (ctx : RequestCtx) (c : String) :
    (∀ u, lookup_active db c = some u → url_is_expired u ctx.now = true →
      redirect_short_url db ctx c = (.expiredPage, db)) ∧
    ((∀ v ∈ db.urls, v.short_code = c → v.is_active = false) →
      redirect_short_url db ctx c = (.notFound, db)) ∧
    Response.expiredPage.status = 410 ∧ Response.notFound.status = 404 := by
    refine ⟨fun u hfind hexp => ?_, fun hall => ?_, rfl, rfl⟩
    · rw [redirect_short_url, hfind]
      simp [hexp]
    · rw [redirect_short_url, lookup_active_none hall]

/-- Witness for C4's amended theorem: an expired active link gets the 410 page
with the database untouched; the same link deactivated gets a 404. -/
theorem expiry_read_only_witness :
    redirect_short_url dbExpired exCtx "abc123" = (.expiredPage, dbExpired) ∧
    redirect_short_url dbExpiredInactive exCtx "gone99"
      = (.notFound, dbExpiredInactive) := by
  constructor
  · exact (expiry_read_only dbExpired exCtx "abc123").1 exExpired
      (by decide) (by decide)
  · exact (expiry_read_only dbExpiredInactive exCtx "gone99").2.1 (by decide)

/-!  ## C7 — the password gate is side-effect free  -/

/-- C7: for a password-protected link, a request without the session's
verification marker is redirected to the password surface with the database
untouched — no `Click` row, no counter change — and the response carries only
the short code, never the target URL; and a wrong-password submission to the
password surface (modelled from the spec, validated by the source's
`PasswordForm.clean_password`) re-renders the form without setting the
marker or touching the database. -/
theorem password_gate_no_side_effects (db : DB) (ctx : RequestCtx) (c : String)
    (u : URLRec)
    (hfind : lookup_active db c = some u)
    (hexp : url_is_expired u ctx.now = false)
    (hpw : u.password ≠ "")
    (hmark : u.id ∉ ctx.session_auth) :
    redirect_short_url db ctx c = (.passwordRedirect c, db) ∧
    (redirect_short_url db ctx c).1.isSuccess = false ∧
    (∀ s, s ≠ u.password →
      url_password_view db ctx.session_auth c s = (.formPage c, ctx.session_auth, db)) := by
  have hgate : (u.password != "" && !(ctx.session_auth.contains u.id)) = true := by
    have hc : ctx.session_auth.contains u.id = false := by
      rcases h : ctx.session_auth.contains u.id with _ | _
      · rfl
      · exact absurd (by simpa [List.contains] using List.elem_iff.mp h) hmark
    rw [hc]
    simp [bne_iff_ne, hpw]
  have hstep : redirect_short_url db ctx c = (.passwordRedirect c, db) := by
    simp only [redirect_short_url, hfind]
    rw [hexp, hgate]
    simp
  refine ⟨hstep, by rw [hstep]; rfl, fun s hs => ?_⟩
  have hbad : clean_password (some u) s = .error .invalidChars := by
    simp only [clean_password]
    rw [if_pos (fun h : u.password = s => hs h.symm)]
  simp only [url_password_view, hfind]
  rw [hbad]

/-- Witness for C7: a protected link redirects to the password form without
state change, and a wrong submission is rejected without state change. -/
theorem password_gate_no_side_effects_witness :
    redirect_short_url dbProtected exCtx "abc123"
      = (.passwordRedirect "abc123", dbProtected) ∧
    url_password_view dbProtected exCtx.session_auth "abc123" "letmein"
      = (.formPage "abc123", exCtx.session_auth, dbProtected) := by
  have h := password_gate_no_side_effects dbProtected exCtx "abc123" exProtected
    (by decide) (by decide) (by decide) (by decide)
  exact ⟨h.1, h.2.2 "letmein" (by decide)⟩

/-!  ## C2 — one-time consumption  -/

/-- Every record of the table carrying the code is inactive. -/
def AllInactiveFor (db : DB) (c : String) : Prop :=
  ∀ v ∈ db.urls, v.short_code = c → v.is_active = false

/-- Every record of the table carrying the code is one-time. -/
def OneTimeFor (db : DB) (c : String) : Prop :=
  ∀ v ∈ db.urls, v.short_code = c → v.is_one_time = true

/-- Primary keys identify records (the database's primary-key invariant). -/
def IdsInj (db : DB) : Prop :=
  ∀ v ∈ db.urls, ∀ w ∈ db.urls, v.id = w.id → v = w

/-- At most one record carries the code (the `unique=True` column invariant,
restricted to one code). -/
def CodeUniqueFor (db : DB) (c : String) : Prop :=
  ∀ v ∈ db.urls, ∀ w ∈ db.urls, v.short_code = c → w.short_code = c → v = w

/-- Shape of one resolution step's final state: either the database is
returned untouched, or exactly the looked-up row is replaced by its
resolution update. -/
lemma step_shape (db : DB) (ctx : RequestCtx) (code : String) :
    (redirect_short_url db ctx code).2 = db ∨
    ∃ u, lookup_active db code = some u ∧
      (redirect_short_url db ctx code).2.urls
        = db.urls.map (fun v => if v.id == u.id then resolve_update u ctx.now else v) := by
  rcases hlk : lookup_active db code with _ | u
  · left
    simp only [redirect_short_url, hlk]
  · rcases hexp : url_is_expired u ctx.now with _ | _
    · rcases hgate : (u.password != "" && !(ctx.session_auth.contains u.id)) with _ | _
      · right
        refine ⟨u, rfl, ?_⟩
        simp only [redirect_short_url, hlk]
        rw [hexp, hgate]
        simp only [Bool.false_eq_true, if_false, save_url,
          (resolve_update_fields u ctx.now).1]
      · left
        simp only [redirect_short_url, hlk]
        rw [hexp, hgate]
        simp
    · left
      simp only [redirect_short_url, hlk]
      rw [hexp]
      simp

/-- A resolution step never reactivates: `AllInactiveFor` is preserved. -/
lemma step_pres_inactive (db : DB) (ctx : RequestCtx) (code c : String)
    (h : AllInactiveFor db c) :
    AllInactiveFor (redirect_short_url db ctx code).2 c := by
  rcases step_shape db ctx code with hdb | ⟨u, hlk, hurls⟩
  · rw [hdb]
    exact h
  · obtain ⟨humem, hucode, huact⟩ := lookup_active_spec hlk
    intro v2 hv2 hv2code
    rw [hurls] at hv2
    obtain ⟨v, hv, rfl⟩ := List.mem_map.mp hv2
    by_cases hid : (v.id == u.id) = true
    · rw [if_pos hid] at hv2code ⊢
      have : u.short_code = c := by
        rw [← (resolve_update_fields u ctx.now).2.2.1]
        exact hv2code
      exact absurd (h u humem this) (by simp [huact])
    · rw [if_neg hid] at hv2code ⊢
      exact h v hv hv2code

/-- A resolution step never changes the one-time flag: `OneTimeFor` is
preserved. -/
lemma step_pres_onetime (db : DB) (ctx : RequestCtx) (code c : String)
    (h : OneTimeFor db c) :
    OneTimeFor (redirect_short_url db ctx code).2 c := by
  rcases step_shape db ctx code with hdb | ⟨u, hlk, hurls⟩
  · rw [hdb]
    exact h
  · obtain ⟨humem, hucode, huact⟩ := lookup_active_spec hlk
    intro v2 hv2 hv2code
    rw [hurls] at hv2
    obtain ⟨v, hv, rfl⟩ := List.mem_map.mp hv2
    by_cases hid : (v.id == u.id) = true
    · rw [if_pos hid] at hv2code ⊢
      rw [(resolve_update_fields u ctx.now).2.2.2.1]
      rw [(resolve_update_fields u ctx.now).2.2.1] at hv2code
      exact h u humem hv2code
    · rw [if_neg hid] at hv2code ⊢
      exact h v hv hv2code

/-- A resolution step preserves the primary keys of every row. -/
lemma step_update_id (u : URLRec) (now : Nat) (v : URLRec) :
    ((fun v => if v.id == u.id then resolve_update u now else v) v).id = v.id := by
  show (if v.id == u.id then resolve_update u now else v).id = v.id
  by_cases hid : (v.id == u.id) = true
  · rw [if_pos hid, (resolve_update_fields u now).1]
    exact (beq_iff_eq.mp hid).symm
  · rw [if_neg hid]

/-- `IdsInj` is preserved by a resolution step. -/
lemma step_pres_idsinj (db : DB) (ctx : RequestCtx) (code : String)
    (hI : IdsInj db) : IdsInj (redirect_short_url db ctx code).2 := by
  rcases step_shape db ctx code with hdb | ⟨u, hlk, hurls⟩
  · rw [hdb]
    exact hI
  · intro v2 hv2 w2 hw2 hid
    rw [hurls] at hv2 hw2
    obtain ⟨v, hv, rfl⟩ := List.mem_map.mp hv2
    obtain ⟨w, hw, rfl⟩ := List.mem_map.mp hw2
    rw [step_update_id, step_update_id] at hid
    rw [hI v hv w hw hid]

/-- Under `IdsInj`, a resolution step also preserves every row's short code,
hence `CodeUniqueFor`. -/
lemma step_pres_codeunique (db : DB) (ctx : RequestCtx) (code c : String)
    (hI : IdsInj db) (hC : CodeUniqueFor db c) :
    CodeUniqueFor (redirect_short_url db ctx code).2 c := by
  rcases step_shape db ctx code with hdb | ⟨u, hlk, hurls⟩
  · rw [hdb]
    exact hC
  · obtain ⟨humem, hucode, huact⟩ := lookup_active_spec hlk
    have hcodes : ∀ v ∈ db.urls,
        ((fun v => if v.id == u.id then resolve_update u ctx.now else v) v).short_code
          = v.short_code := by
      intro v hv
      show (if v.id == u.id then resolve_update u ctx.now else v).short_code
        = v.short_code
      by_cases hid : (v.id == u.id) = true
      · rw [if_pos hid, (resolve_update_fields u ctx.now).2.2.1,
          hI v hv u humem (beq_iff_eq.mp hid)]
      · rw [if_neg hid]
    intro v2 hv2 w2 hw2 hvc hwc
    rw [hurls] at hv2 hw2
    obtain ⟨v, hv, rfl⟩ := List.mem_map.mp hv2
    obtain ⟨w, hw, rfl⟩ := List.mem_map.mp hw2
    rw [hcodes v hv] at hvc
    rw [hcodes w hw] at hwc
    rw [hC v hv w hw hvc hwc]

/-- When every record with the code is inactive, a request for the code is
answered NotFound and leaves the database untouched. -/
lemma step_all_inactive (db : DB) (ctx : RequestCtx) (c : String)
    (h : AllInactiveFor db c) :
    redirect_short_url db ctx c = (.notFound, db) := by
  rw [redirect_short_url, lookup_active_none h]

/-- A successful resolution of the code of a one-time link leaves every record
with that code inactive. -/
lemma success_all_inactive (db : DB) (ctx : RequestCtx) (c : String)
    (hC : CodeUniqueFor db c) (hO : OneTimeFor db c)
    (hsucc : (redirect_short_url db ctx c).1.isSuccess = true) :
    AllInactiveFor (redirect_short_url db ctx c).2 c := by
  rcases hlk : lookup_active db c with _ | u
  · rw [step_all_inactive db ctx c] at hsucc ⊢
    · exact absurd hsucc (by simp [Response.isSuccess])
    · intro v hv hvc
      by_contra hact
      have : (fun w => w.short_code == c && w.is_active) v = true := by
        simp [hvc, Bool.ne_false_iff.mp hact]
      exact absurd (List.find?_eq_none.mp hlk v hv this) (by simp)
    · intro v hv hvc
      by_contra hact
      have : (fun w => w.short_code == c && w.is_active) v = true := by
        simp [hvc, Bool.ne_false_iff.mp hact]
      exact absurd (List.find?_eq_none.mp hlk v hv this) (by simp)
  · obtain ⟨humem, hucode, huact⟩ := lookup_active_spec hlk
    rcases hexp : url_is_expired u ctx.now with _ | _
    · rcases hgate : (u.password != "" && !(ctx.session_auth.contains u.id)) with _ | _
      · have hurls : (redirect_short_url db ctx c).2.urls
            = db.urls.map (fun v => if v.id == u.id then resolve_update u ctx.now else v) := by
          simp only [redirect_short_url, hlk]
          rw [hexp, hgate]
          simp only [Bool.false_eq_true, if_false, save_url,
            (resolve_update_fields u ctx.now).1]
        intro v2 hv2 hv2code
        rw [hurls] at hv2
        obtain ⟨v, hv, rfl⟩ := List.mem_map.mp hv2
        by_cases hid : (v.id == u.id) = true
        · rw [if_pos hid]
          rw [resolve_update_is_active, hO u humem hucode]
          simp
        · rw [if_neg hid] at hv2code ⊢
          have hvu : v = u := hC v hv u humem hv2code hucode
          rw [hvu] at hid
          simp at hid
      · have : (redirect_short_url db ctx c).1 = .passwordRedirect c := by
          simp only [redirect_short_url, hlk]
          rw [hexp, hgate]
          simp
        rw [this] at hsucc
        exact absurd hsucc (by simp [Response.isSuccess])
    · have : (redirect_short_url db ctx c).1 = .expiredPage := by
        simp only [redirect_short_url, hlk]
        rw [hexp]
        simp
      rw [this] at hsucc
      exact absurd hsucc (by simp [Response.isSuccess])

/-- Once every record with the code is inactive, no request sequence ever
obtains another successful redirect for it. -/
lemma successCount_eq_zero (c : String) (reqs : List (RequestCtx × String)) :
    ∀ db : DB, AllInactiveFor db c → successCount db c reqs = 0 := by
  induction reqs with
  | nil => intro db _; rfl
  | cons hd rest ih =>
    intro db h
    obtain ⟨ctx, code⟩ := hd
    simp only [successCount]
    by_cases hcode : code = c
    · subst hcode
      rw [step_all_inactive db ctx code h]
      simpa [Response.isSuccess] using ih db h
    · have hbeq : (code == c) = false := beq_eq_false_iff_ne.mpr hcode
      rw [hbeq]
      simpa using ih _ (step_pres_inactive db ctx code c h)

/-- C2 counterexample: for a fresh one-time link, the second of two
consecutive requests is answered 404 (NotFound) — not the claimed Inactive
outcome (410): the deactivated row is filtered out of the lookup. -/
theorem one_time_second_request_counterexample :
    (runRequests dbOneTime [(exCtx, "once11"), (exCtx, "once11")]).1
      = [.permanentRedirect "https://example.com", .notFound] ∧
    exOneTime.is_one_time = true ∧
    Response.notFound.status = 404 ∧ Response.notFound.status ≠ 410 := by
  exact ⟨rfl, rfl, rfl, by decide⟩

/-- C2 amended: for a one-time link, over every request sequence at most one
request for its code ever resolves successfully; a successful resolution
leaves every record with that code inactive; and once that holds, every
further request for the code is answered NotFound (404 — the code reports
the consumed link like a missing one, not as a distinct Inactive/410
outcome) without touching the database. -/
theorem one_time_single_use (db : DB) (c : String)
    (hI : IdsInj db) (hC : CodeUniqueFor db c) (hO : OneTimeFor db c) :
    (∀ reqs, successCount db c reqs ≤ 1) ∧
    (∀ ctx, (redirect_short_url db ctx c).1.isSuccess = true →
      AllInactiveFor (redirect_short_url db ctx c).2 c) ∧
    (∀ (db2 : DB) (ctx : RequestCtx), AllInactiveFor db2 c →
      redirect_short_url db2 ctx c = (.notFound, db2)) := by
  refine ⟨fun reqs => ?_, fun ctx => success_all_inactive db ctx c hC hO,
    fun db2 ctx h => step_all_inactive db2 ctx c h⟩
  induction reqs generalizing db with
  | nil => exact Nat.zero_le 1
  | cons hd rest ih =>
    obtain ⟨ctx, code⟩ := hd
    simp only [successCount]
    by_cases hcode : code = c
    · subst hcode
      rcases hsucc : (redirect_short_url db ctx code).1.isSuccess with _ | _
      · simp only [Bool.and_false, Bool.false_eq_true, if_false]
        have h1 := step_pres_idsinj db ctx code hI
        have h2 := step_pres_codeunique db ctx code code hI hC
        have h3 := step_pres_onetime db ctx code code hO
        simpa using ih _ h1 h2 h3
      · have hzero := successCount_eq_zero code rest (redirect_short_url db ctx code).2
          (success_all_inactive db ctx code hC hO hsucc)
        rw [hzero]
        simp
    · have hbeq : (code == c) = false := beq_eq_false_iff_ne.mpr hcode
      rw [hbeq]
      have h1 := step_pres_idsinj db ctx code hI
      have h2 := step_pres_codeunique db ctx code c hI hC
      have h3 := step_pres_onetime db ctx code c hO
      simpa using ih _ h1 h2 h3

/-- Witness for C2's amended theorem: the one-time fixture under two identical
requests scores at most one success, and a consumed state answers NotFound. -/
theorem one_time_single_use_witness :
    successCount dbOneTime "once11" [(exCtx, "once11"), (exCtx, "once11")] ≤ 1 ∧
    redirect_short_url
        (redirect_short_url dbOneTime exCtx "once11").2 exCtx "once11"
      = (.notFound, (redirect_short_url dbOneTime exCtx "once11").2) := by
  have h := one_time_single_use dbOneTime "once11"
    (by unfold IdsInj; decide) (by unfold CodeUniqueFor; decide)
    (by unfold OneTimeFor; decide)
  refine ⟨h.1 [(exCtx, "once11"), (exCtx, "once11")], ?_⟩
  exact h.2.2 _ exCtx (h.2.1 exCtx (by decide))

/-!  ## C9 — analytics correctness: sorting and grouping lemmas  -/

lemma mem_firstSeen (x : String) : ∀ l : List String, x ∈ firstSeen l ↔ x ∈ l := by
  intro l
  induction l with
  | nil => rfl
  | cons r rs ih =>
    simp only [firstSeen, List.mem_cons, List.mem_filter, ih]
    by_cases hx : x = r
    · simp [hx]
    · simp [hx]

lemma nodup_firstSeen : ∀ l : List String, (firstSeen l).Nodup := by
  intro l
  induction l with
  | nil => exact List.nodup_nil
  | cons r rs ih =>
    refine List.Nodup.cons ?_ (ih.filter _)
    intro hmem
    exact absurd (List.of_mem_filter hmem) (by simp)

lemma mem_firstSeenNat (x : Nat) : ∀ l : List Nat, x ∈ firstSeenNat l ↔ x ∈ l := by
  intro l
  induction l with
  | nil => rfl
  | cons r rs ih =>
    simp only [firstSeenNat, List.mem_cons, List.mem_filter, ih]
    by_cases hx : x = r
    · simp [hx]
    · simp [hx]

lemma nodup_firstSeenNat : ∀ l : List Nat, (firstSeenNat l).Nodup := by
  intro l
  induction l with
  | nil => exact List.nodup_nil
  | cons r rs ih =>
    refine List.Nodup.cons ?_ (ih.filter _)
    intro hmem
    exact absurd (List.of_mem_filter hmem) (by simp)

lemma mem_insertAsc (a x : Nat) : ∀ l : List Nat, x ∈ insertAsc a l ↔ x = a ∨ x ∈ l := by
  intro l
  induction l with
  | nil => simp [insertAsc]
  | cons b bs ih =>
    simp only [insertAsc]
    split
    · simp
    · simp only [List.mem_cons, ih]
      tauto

lemma mem_sortAsc (x : Nat) : ∀ l : List Nat, x ∈ sortAsc l ↔ x ∈ l := by
  intro l
  induction l with
  | nil => rfl
  | cons a as ih =>
    simp only [sortAsc, mem_insertAsc, ih, List.mem_cons]

lemma pairwise_insertAsc (a : Nat) :
    ∀ l : List Nat, l.Pairwise (· ≤ ·) → (insertAsc a l).Pairwise (· ≤ ·) := by
  intro l
  induction l with
  | nil => intro _; simp [insertAsc]
  | cons b bs ih =>
    intro h
    rw [List.pairwise_cons] at h
    simp only [insertAsc]
    split
    · exact List.Pairwise.cons
        (by intro x hx
            rcases List.mem_cons.mp hx with hx | hx
            · omega
            · exact le_trans (by omega) (h.1 x hx))
        (List.Pairwise.cons h.1 h.2)
    · refine List.Pairwise.cons ?_ (ih h.2)
      intro x hx
      rcases (mem_insertAsc a x bs).mp hx with hx | hx
      · omega
      · exact h.1 x hx

lemma pairwise_sortAsc : ∀ l : List Nat, (sortAsc l).Pairwise (· ≤ ·) := by
  intro l
  induction l with
  | nil => exact List.Pairwise.nil
  | cons a as ih => exact pairwise_insertAsc a (sortAsc as) ih

lemma nodup_insertAsc (a : Nat) :
    ∀ l : List Nat, a ∉ l → l.Nodup → (insertAsc a l).Nodup := by
  intro l
  induction l with
  | nil => intro _ _; simp [insertAsc]
  | cons b bs ih =>
    intro ha h
    rw [List.nodup_cons] at h
    simp only [insertAsc]
    split
    · exact List.Nodup.cons (by simpa using ha) (List.Nodup.cons h.1 h.2)
    · refine List.Nodup.cons ?_ (ih (fun hm => ha (List.mem_cons_of_mem b hm)) h.2)
      intro hmem
      rcases (mem_insertAsc a b bs).mp hmem with hb | hb
      · exact ha (by simp [hb])
      · exact h.1 hb

lemma nodup_sortAsc : ∀ l : List Nat, l.Nodup → (sortAsc l).Nodup := by
  intro l
  induction l with
  | nil => intro _; exact List.nodup_nil
  | cons a as ih =>
    intro h
    rw [List.nodup_cons] at h
    exact nodup_insertAsc a (sortAsc as) (fun hm => h.1 ((mem_sortAsc a as).mp hm))
      (ih h.2)

lemma mem_insertDesc (a x : String × Nat) :
    ∀ l : List (String × Nat), x ∈ insertDesc a l ↔ x = a ∨ x ∈ l := by
  intro l
  induction l with
  | nil => simp [insertDesc]
  | cons b bs ih =>
    simp only [insertDesc]
    split
    · simp only [List.mem_cons, ih]
      tauto
    · simp

lemma perm_insertDesc (a : String × Nat) :
    ∀ l : List (String × Nat), (insertDesc a l).Perm (a :: l) := by
  intro l
  induction l with
  | nil => exact List.Perm.refl _
  | cons b bs ih =>
    simp only [insertDesc]
    split
    · exact (ih.cons b).trans (List.Perm.swap a b bs)
    · exact List.Perm.refl _

lemma perm_sortDesc : ∀ l : List (String × Nat), (sortDesc l).Perm l := by
  intro l
  induction l with
  | nil => exact List.Perm.refl _
  | cons a as ih => exact (perm_insertDesc a (sortDesc as)).trans (ih.cons a)

lemma pairwise_insertDesc (a : String × Nat) :
    ∀ l : List (String × Nat), l.Pairwise (fun p q => q.2 ≤ p.2) →
      (insertDesc a l).Pairwise (fun p q => q.2 ≤ p.2) := by
  intro l
  induction l with
  | nil => intro _; simp [insertDesc]
  | cons b bs ih =>
    intro h
    rw [List.pairwise_cons] at h
    simp only [insertDesc]
    split
    · refine List.Pairwise.cons ?_ (ih h.2)
      intro x hx
      rcases (mem_insertDesc a x bs).mp hx with hx | hx
      · subst hx
        omega
      · exact h.1 x hx
    · exact List.Pairwise.cons
        (by intro x hx
            rcases List.mem_cons.mp hx with hx | hx
            · subst hx
              omega
            · exact le_trans (h.1 x hx) (by omega))
        (List.Pairwise.cons h.1 h.2)

lemma pairwise_sortDesc :
    ∀ l : List (String × Nat), (sortDesc l).Pairwise (fun p q => q.2 ≤ p.2) := by
  intro l
  induction l with
  | nil => exact List.Pairwise.nil
  | cons a as ih => exact pairwise_insertDesc a (sortDesc as) ih

/-!  ## C9 — analytics correctness  -/

/-- What the embedding proves about one "top" list: it is the first ten rows
of the queryset output, its counts are in descending order, every listed
value carries its exact frequency among the non-empty occurrences and does
occur there, and every row cut off by the `[:10]` slice has a count no
greater than every listed one. -/
def TopByFrequency (field : ClickRec → String) (cs : List ClickRec)
    (rows out : List (String × Nat)) : Prop :=
  out = rows.take 10 ∧
  (out.map Prod.snd).Pairwise (· ≥ ·) ∧
  (∀ p ∈ out, p.2 = ((cs.filter (fun k => field k ≠ "")).map field).count p.1) ∧
  (∀ p ∈ out, p.1 ∈ (cs.filter (fun k => field k ≠ "")).map field) ∧
  (∀ p ∈ out, ∀ q ∈ rows.drop 10, q.2 ≤ p.2)

/-- Every entry of the grouped counts pairs a value occurring among the
non-empty occurrences with its exact frequency. -/
lemma grouped_counts_spec (field : ClickRec → String) (cs : List ClickRec) :
    ∀ p ∈ grouped_counts field cs,
      p.2 = ((cs.filter (fun k => field k ≠ "")).map field).count p.1 ∧
      p.1 ∈ (cs.filter (fun k => field k ≠ "")).map field := by
  intro p hp
  obtain ⟨v, hv, rfl⟩ := List.mem_map.mp hp
  exact ⟨rfl, (mem_firstSeen v _).mp hv⟩

/-- Any row list satisfying the queryset contract yields the `TopByFrequency`
properties for its `[:10]` slice, and enumerates exactly the distinct
non-empty values of the attribute. -/
lemma queryset_top_spec (field : ClickRec → String) (cs : List ClickRec)
    (rows : List (String × Nat)) (h : QuerysetTopOutput field cs rows) :
    TopByFrequency field cs rows (rows.take 10) ∧
    (∀ v, (∃ n, (v, n) ∈ rows) ↔
      v ∈ (cs.filter (fun k => field k ≠ "")).map field) := by
  obtain ⟨hperm, hpair⟩ := h
  have hmemrows : ∀ p ∈ rows, p ∈ grouped_counts field cs :=
    fun p hp => hperm.mem_iff.mp hp
  refine ⟨⟨rfl, ?_, ?_, ?_, ?_⟩, ?_⟩
  · rw [List.pairwise_map]
    exact hpair.sublist (List.take_sublist 10 rows)
  · intro p hp
    exact (grouped_counts_spec field cs p
      (hmemrows p (List.mem_of_mem_take hp))).1
  · intro p hp
    exact (grouped_counts_spec field cs p
      (hmemrows p (List.mem_of_mem_take hp))).2
  · have hsplit := hpair
    rw [← List.take_append_drop 10 rows] at hsplit
    exact fun p hp q hq => (List.pairwise_append.mp hsplit).2.2 p hp q hq
  · intro v
    constructor
    · rintro ⟨n, hn⟩
      exact (grouped_counts_spec field cs (v, n) (hmemrows (v, n) hn)).2
    · intro hv
      refine ⟨((cs.filter (fun k => field k ≠ "")).map field).count v, ?_⟩
      exact hperm.symm.mem_iff.mp
        (List.mem_map_of_mem _ ((mem_firstSeen v _).mpr hv))

/-- The contract is satisfiable: the stable descending insertion sort of the
grouped counts is one valid queryset output. -/
lemma queryset_top_output_exists (field : ClickRec → String)
    (cs : List ClickRec) :
    QuerysetTopOutput field cs (sortDesc (grouped_counts field cs)) :=
  ⟨perm_sortDesc _, pairwise_sortDesc _⟩

/-- A click whose referrer is `r1`. -/
def exClickR1 : ClickRec :=
  { url_id := 1, clicked_at := 0, ip_address := some "203.0.113.1",
    referrer := "https://r1.example", user_agent := "ua1", country := "",
    city := "", device_type := "Desktop", browser := "", os := "" }

/-- A later click whose referrer is `r2`. -/
def exClickR2 : ClickRec :=
  { url_id := 1, clicked_at := 1, ip_address := some "203.0.113.2",
    referrer := "https://r2.example", user_agent := "ua1", country := "",
    city := "", device_type := "Desktop", browser := "", os := "" }

/-- Two clicks with distinct referrers of equal frequency. -/
def csTie : List ClickRec := [exClickR1, exClickR2]

/-- C9 counterexample: the query determines no order among equal-count
values, so "ties broken by first-seen order" is not a property of the
program. For a click list whose first-seen referrer order is `r1` before
`r2`, both counted once, the row list with `r2` first satisfies the
queryset contract just as well as the one with `r1` first. -/
theorem top_tie_order_counterexample :
    csTie.map (fun k => k.referrer)
      = ["https://r1.example", "https://r2.example"] ∧
    QuerysetTopOutput (fun k => k.referrer) csTie
      [("https://r1.example", 1), ("https://r2.example", 1)] ∧
    QuerysetTopOutput (fun k => k.referrer) csTie
      [("https://r2.example", 1), ("https://r1.example", 1)] ∧
    ([("https://r2.example", 1), ("https://r1.example", 1)] : List (String × Nat))
      ≠ [("https://r1.example", 1), ("https://r2.example", 1)] := by
  refine ⟨rfl, ?_, ?_, by decide⟩ <;>
    exact ⟨by decide, by decide⟩

/-- C9 amended: recomputed over a link's full click history, `url_stats`
returns the event count as `total_clicks`; `unique_visitors` as the number of
distinct `ip_address` values with all absent IPs collapsing into the single
`NULL` bucket; `clicks_by_date` grouping the events by calendar date in
strictly ascending date order with exact per-date counts covering exactly the
dates that occur; and `top_referrers`/`top_user_agents` as the first ten rows
of any queryset output enumerating each distinct non-empty value once with
its exact frequency in descending count order — the order among equal counts
being unspecified by the query. -/
theorem url_stats_correct (db : DB) (uid : Nat)
    (ref_rows ua_rows : List (String × Nat))
    (hr : QuerysetTopOutput (fun k => k.referrer) (clicks_of db uid) ref_rows)
    (hu : QuerysetTopOutput (fun k => k.user_agent) (clicks_of db uid) ua_rows) :
    (url_stats db uid ref_rows ua_rows).total_clicks
      = (clicks_of db uid).length ∧
    (url_stats db uid ref_rows ua_rows).unique_visitors
      = ((clicks_of db uid).map (fun k => k.ip_address)).toFinset.card ∧
    (clicks_of db uid ≠ [] →
      (∀ k ∈ clicks_of db uid, k.ip_address = none) →
      (url_stats db uid ref_rows ua_rows).unique_visitors = 1) ∧
    ((url_stats db uid ref_rows ua_rows).clicks_by_date.map Prod.fst).Pairwise
      (· < ·) ∧
    (∀ p ∈ (url_stats db uid ref_rows ua_rows).clicks_by_date,
      p.2 = ((clicks_of db uid).filter (fun k => date_of k == p.1)).length) ∧
    (∀ d, (∃ k ∈ clicks_of db uid, date_of k = d) ↔
      ∃ n, (d, n) ∈ (url_stats db uid ref_rows ua_rows).clicks_by_date) ∧
    TopByFrequency (fun k => k.referrer) (clicks_of db uid) ref_rows
      (url_stats db uid ref_rows ua_rows).top_referrers ∧
    (∀ v, (∃ n, (v, n) ∈ ref_rows) ↔
      v ∈ ((clicks_of db uid).filter (fun k => k.referrer ≠ "")).map
        (fun k => k.referrer)) ∧
    TopByFrequency (fun k => k.user_agent) (clicks_of db uid) ua_rows
      (url_stats db uid ref_rows ua_rows).top_user_agents ∧
    (∀ v, (∃ n, (v, n) ∈ ua_rows) ↔
      v ∈ ((clicks_of db uid).filter (fun k => k.user_agent ≠ "")).map
        (fun k => k.user_agent)) := by
  obtain ⟨hrtop, hrvals⟩ := queryset_top_spec (fun k => k.referrer)
    (clicks_of db uid) ref_rows hr
  obtain ⟨hutop, huvals⟩ := queryset_top_spec (fun k => k.user_agent)
    (clicks_of db uid) ua_rows hu
  refine ⟨rfl, (List.card_toFinset _).symm, ?_, ?_, ?_, ?_,
    hrtop, hrvals, hutop, huvals⟩
  · intro hne hall
    show ((clicks_of db uid).map (fun k => k.ip_address)).dedup.length = 1
    rw [← List.card_toFinset]
    refine Finset.card_eq_one.mpr
      ⟨none, Finset.eq_singleton_iff_unique_mem.mpr ⟨?_, ?_⟩⟩
    · rw [List.mem_toFinset]
      obtain ⟨k, hk⟩ := List.exists_mem_of_ne_nil _ hne
      exact (hall k hk) ▸ List.mem_map_of_mem _ hk
    · intro x hx
      rw [List.mem_toFinset] at hx
      obtain ⟨k, hk, rfl⟩ := List.mem_map.mp hx
      exact hall k hk
  · have hkeys : (url_stats db uid ref_rows ua_rows).clicks_by_date.map Prod.fst
        = sortAsc (firstSeenNat ((clicks_of db uid).map date_of)) := by
      show (clicks_by_date (clicks_of db uid)).map Prod.fst = _
      simp only [clicks_by_date, List.map_map]
      exact List.map_id _
    rw [hkeys]
    have h1 := pairwise_sortAsc (firstSeenNat ((clicks_of db uid).map date_of))
    have h2 : (sortAsc (firstSeenNat ((clicks_of db uid).map date_of))).Nodup :=
      nodup_sortAsc _ (nodup_firstSeenNat _)
    exact (h1.and h2).imp (fun h => lt_of_le_of_ne h.1 h.2)
  · intro p hp
    obtain ⟨d, hd, rfl⟩ := List.mem_map.mp hp
    rfl
  · intro d
    constructor
    · rintro ⟨k, hk, rfl⟩
      refine ⟨((clicks_of db uid).filter
        (fun k2 => date_of k2 == date_of k)).length, ?_⟩
      apply List.mem_map_of_mem
      exact (mem_sortAsc _ _).mpr
        ((mem_firstSeenNat _ _).mpr (List.mem_map_of_mem _ hk))
    · rintro ⟨n, hn⟩
      obtain ⟨d2, hd2, hEq⟩ := List.mem_map.mp hn
      injection hEq with h1 h2
      subst h1
      have hd3 := (mem_firstSeenNat _ _).mp ((mem_sortAsc _ _).mp hd2)
      obtain ⟨k, hk, hkd⟩ := List.mem_map.mp hd3
      exact ⟨k, hk, hkd⟩

/-- Clicks without any IP (the `NULL` bucket fixture). -/
def exClickNoIpA : ClickRec :=
  { url_id := 1, clicked_at := 10, ip_address := none,
    referrer := "https://ref.example", user_agent := "ua1", country := "",
    city := "", device_type := "Desktop", browser := "", os := "" }

/-- A second click without IP, on the following day. -/
def exClickNoIpB : ClickRec :=
  { url_id := 1, clicked_at := 90000, ip_address := none, referrer := "",
    user_agent := "ua1", country := "", city := "", device_type := "Desktop",
    browser := "", os := "" }

/-- A database whose two clicks both lack an IP address. -/
def dbNoIps : DB := { urls := [exActive], clicks := [exClickNoIpA, exClickNoIpB] }

/-- Witness for C9 at a concrete database: two IP-less clicks count as one
unique visitor and `total_clicks` is the event count, with the two queryset
row lists given concretely and checked against the contract. -/
theorem url_stats_correct_witness :
    (url_stats dbNoIps 1 [("https://ref.example", 1)] [("ua1", 2)]).unique_visitors
      = 1 ∧
    (url_stats dbNoIps 1 [("https://ref.example", 1)] [("ua1", 2)]).total_clicks
      = 2 := by
  have h := url_stats_correct dbNoIps 1 [("https://ref.example", 1)] [("ua1", 2)]
    ⟨by decide, by decide⟩ ⟨by decide, by decide⟩
  refine ⟨h.2.2.1 (by decide) (by decide), ?_⟩
  rw [h.1]
  decide

end UrlShortener
